import Mathlib

/-!
Verification development for the reshape zero-downtime Postgres migration tool.

This file gives a shallow embedding of the migration coordinator
(src/lib.rs), the state store (src/state.rs), the database gateway
(src/db.rs), the helper installer (src/helpers.rs), the backfill engine
(src/migrations/common.rs) and the identifier derivation
(src/migrations/mod.rs, src/migrations/alter_column.rs), together with
theorems settling the frozen claims about them.

Modelling conventions:
- Database effects are threaded through an explicit `DB` record.  SQL
  statements that only touch physical tables (DDL, views, schema drops)
  have no logical effect on the coordinator state machine and are elided;
  statements that read or write the `reshape.data` state row, the
  `reshape.migrations` log, the helper function or the advisory lock are
  modelled by the corresponding `DB` fields.
- A migration action (`Box<dyn Action>`) is abstracted by the outcomes the
  coordinator can observe: whether `run`, `complete` and `abort` succeed
  and whether `complete` returns a transaction.
- Rust `usize` indices are modelled by `Nat`; `usize::MAX` by the constant
  `USIZE_MAX`.  Panics (`unwrap` on `None`) are modelled by `none` results
  or explicit panic errors, as noted at each definition.
-/

deriving instance DecidableEq for Except

namespace Reshape

/-- Abstraction of one migration action (`Box<dyn Action>` from
src/migrations/mod.rs).  The coordinator in src/lib.rs observes only
whether `run`, `complete` and `abort` succeed, and whether `complete`
returns a transaction for the state save. -/
structure ActionOutcome where
  runOk : Bool := true
  completeOk : Bool := true
  completeReturnsTransaction : Bool := false
  abortOk : Bool := true
deriving DecidableEq

/-- `Migration` from src/migrations/mod.rs: a name, an optional
description and an ordered list of actions. -/
structure Migration where
  name : String
  description : Option String := none
  actions : List ActionOutcome := []
deriving DecidableEq

/-- Rust `PartialEq for Migration` compares names only
(src/migrations/mod.rs lines 52-56), so `Vec<Migration>` equality is
pointwise name equality. -/
def migrationListEq (a b : List Migration) : Bool :=
  (a.map Migration.name) == (b.map Migration.name)

/-- The persisted status variants (enum `State` in src/state.rs, used as
`state::Status` by src/lib.rs). -/
inductive Status where
  | idle
  | applying (migrations : List Migration)
  | inProgress (migrations : List Migration)
  | completing (migrations : List Migration)
      (currentMigrationIndex currentActionIndex : Nat)
  | aborting (migrations : List Migration)
      (lastMigrationIndex lastActionIndex : Nat)
deriving DecidableEq

/-- `usize::MAX` on a 64-bit target. -/
def USIZE_MAX : Nat := 2 ^ 64 - 1

/-- The in-memory `State` as used by src/lib.rs: the persisted status plus
the name of the most recently completed migration. -/
structure State where
  status : Status := .idle
  currentMigration : Option String := none
deriving DecidableEq

/-- Model of the parts of the database the coordinator logic depends on.
`log` is the contents of `reshape.migrations` as `(index, name)` rows in
on-disk (insertion) order; a `SELECT` without `ORDER BY` returns them in
this order.  `stateWrites` is the trace of every `State::save`, in order.
`completedActions`, `abortedActions` and `ranActions` trace the action
method invocations that succeeded.  `helperCurrentMigration` is `some p`
when the helper function of src/helpers.rs is installed with parameter
`p`, `none` after teardown.  `lockHeldByOther` models another session
holding the advisory lock; `sessionLockHeld` whether this session holds
it. -/
structure DB where
  saved : State := {}
  log : List (Int × String) := []
  stateWrites : List Status := []
  completedActions : List (Nat × Nat) := []
  abortedActions : List (Nat × Nat) := []
  ranActions : List (Nat × Nat) := []
  helperCurrentMigration : Option (Option String) := none
  lockHeldByOther : Bool := false
  sessionLockHeld : Bool := false
deriving DecidableEq

/-- `State::save` (src/state.rs lines 50-59): upsert the state row.  The
model also records the write in the trace. -/
def saveState (st : State) (db : DB) : DB :=
  { db with saved := st, stateWrites := db.stateWrites ++ [st.status] }

/-- `State::load` (src/state.rs lines 35-48): read the single state row,
defaulting to `Idle`. -/
def loadState (db : DB) : State := db.saved

/-! ### Database gateway (src/db.rs) -/

/-- The fixed advisory lock key (src/db.rs line 25). -/
def LOCK_KEY : Int := 4036779288569897133

def lockErrorMessage : String := "another instance of Reshape is already running"

/-- `DbLocker::lock` (src/db.rs lines 51-83): try-acquire the session
advisory lock on `LOCK_KEY`; if the try fails, report the error without
running the closure; otherwise run the closure, release the lock on both
the ok and the error path, and propagate the closure result. -/
def lockRun (f : DB → Except String Unit × DB) (db : DB) :
    Except String Unit × DB :=
  if db.lockHeldByOther then (.error lockErrorMessage, db)
  else
    let r := f { db with sessionLockHeld := true }
    (r.1, { r.2 with sessionLockHeld := false })

/-! ### State store: remaining_migrations (src/state.rs lines 188-260) -/

/-- Insertion of a row into a list kept ascending by index. -/
def insertRowByIndex (r : Int × String) :
    List (Int × String) → List (Int × String)
  | [] => [r]
  | s :: rest =>
    if r.1 ≤ s.1 then r :: s :: rest else s :: insertRowByIndex r rest

/-- Sort rows ascending by index (the effect of `ORDER BY index ASC`). -/
def sortRowsByIndex : List (Int × String) → List (Int × String)
  | [] => []
  | r :: rest => insertRowByIndex r (sortRowsByIndex rest)

/-- `get_migrations` (src/state.rs lines 230-260).  With a cursor the
query is `WHERE index > $1 ORDER BY index ASC LIMIT 100`; without a
cursor the query has NO `ORDER BY`, so the rows come back in storage
order, `LIMIT 100`. -/
def getMigrationsPage (log : List (Int × String)) (indexLargerThan : Option Int) :
    List (Int × String) :=
  match indexLargerThan with
  | none => log.take 100
  | some c => (sortRowsByIndex (log.filter (fun r => decide (c < r.1)))).take 100

/-- The inner `for (index, existing)` loop of `remaining_migrations`
(src/state.rs lines 202-222): update `highest_index` from each row, pull
the next desired migration, and fail on divergence or exhaustion. -/
def consumePage (page : List (Int × String)) (highest : Option Int)
    (newIter : List Migration) :
    Except String (Option Int × List Migration) :=
  match page with
  | [] => .ok (highest, newIter)
  | (idx, existing) :: rest =>
    match newIter with
    | [] =>
      .error ("existing migration " ++ existing ++
        " does not exist in local migrations")
    | newMig :: iterRest =>
      if existing = newMig.name then consumePage rest (some idx) iterRest
      else
        .error ("existing migration " ++ existing ++
          " does not match new migration " ++ newMig.name)

/-- The pagination loop of `remaining_migrations` (src/state.rs lines
196-223).  The fuel argument only bounds the loop; it is chosen large
enough that it is never exhausted on the inputs considered. -/
def remainingLoop (log : List (Int × String)) :
    Nat → Option Int → List Migration → Except String (List Migration)
  | 0, _, _ => .error "internal: page loop fuel exhausted"
  | fuel + 1, highest, newIter =>
    let page := getMigrationsPage log highest
    if page.isEmpty then .ok newIter
    else
      match consumePage page highest newIter with
      | .error e => .error e
      | .ok (h2, rest) => remainingLoop log fuel h2 rest

/-- `remaining_migrations(db, new_migrations)` (src/state.rs lines
188-228): page through the completed-migration log checking the desired
list, returning the rest of the desired iterator. -/
def remainingMigrations (db : DB) (newMigrations : List Migration) :
    Except String (List Migration) :=
  remainingLoop db.log (db.log.length + 2) none newMigrations

/-! ### Helper installer (src/helpers.rs) -/

/-- The name of the function `set_up_helpers` creates
(src/helpers.rs line 17): `reshape.is_old_schema`. -/
def setUpHelpersFunctionName : String := "reshape.is_old_schema"

/-- The helper function the generated trigger bodies of AddColumn,
RemoveColumn and CreateTable invoke (src/migrations/add_column.rs line
130, remove_column.rs line 106, create_table.rs line 161):
`reshape.is_new_schema`. -/
def actionTriggerGuardFunctionName : String := "reshape.is_new_schema"

/-- Semantics of the plpgsql body built by `set_up_helpers`
(src/helpers.rs lines 5-28): `setting_bool` is true when the session GUC
`reshape.is_old_schema` is non-null and equals YES; with a current
migration the returned predicate is
`current_setting of search_path = migration_<current> OR setting_bool`,
otherwise just `setting_bool`. -/
def isOldSchemaPredicate (currentMigration : Option String)
    (searchPath : String) (gucIsOldSchema : Option String) : Bool :=
  let settingBool := gucIsOldSchema == some "YES"
  match currentMigration with
  | some c => (searchPath == "migration_" ++ c) || settingBool
  | none => settingBool

/-- `set_up_helpers` as called by `migrate` (src/lib.rs line 106): the
argument is the CURRENT migration (the latest completed one), not the
target. -/
def setUpHelpers (currentMigration : Option String) (db : DB) : DB :=
  { db with helperCurrentMigration := some currentMigration }

/-- `tear_down_helpers` (src/helpers.rs lines 35-38). -/
def tearDownHelpers (db : DB) : DB :=
  { db with helperCurrentMigration := none }

/-! ### Coordinator: complete (src/lib.rs lines 199-332) -/

/-- The body of the action loop of `complete_migration` for one action
(src/lib.rs lines 253-315): set the advanced `Completing` state in memory
BEFORE running `action.complete`; on success record the action and save
the state (inside the returned transaction when there is one, which has
the same persisted effect), on failure return the error without saving. -/
def completeAction (migs : List Migration) (mIdx aIdx : Nat)
    (a : ActionOutcome) (st : State) (db : DB) :
    Except String Unit × State × DB :=
  let st2 : State := { st with status := .completing migs (mIdx + 1) (aIdx + 1) }
  if a.completeOk then
    let db2 := { db with completedActions := db.completedActions ++ [(mIdx, aIdx)] }
    (.ok (), st2, saveState st2 db2)
  else (.error "failed to complete action", st2, db)

/-- The inner action loop of `complete_migration` (src/lib.rs lines
245-316), skipping actions with
`migration_index == starting_migration_index AND
action_index < starting_action_index`. -/
def completeActionsLoop (migs : List Migration) (startI startJ mIdx : Nat) :
    List ActionOutcome → Nat → State → DB → Except String Unit × State × DB
  | [], _, st, db => (.ok (), st, db)
  | a :: rest, aIdx, st, db =>
    if mIdx = startI ∧ aIdx < startJ then
      completeActionsLoop migs startI startJ mIdx rest (aIdx + 1) st db
    else
      match completeAction migs mIdx aIdx a st db with
      | (.ok _, st2, db2) =>
        completeActionsLoop migs startI startJ mIdx rest (aIdx + 1) st2 db2
      | r => r

/-- The outer migration loop of `complete_migration` (src/lib.rs lines
237-319), skipping whole migrations with
`migration_index < starting_migration_index`. -/
def completeMigsLoop (migs : List Migration) (startI startJ : Nat) :
    List Migration → Nat → State → DB → Except String Unit × State × DB
  | [], _, st, db => (.ok (), st, db)
  | m :: rest, mIdx, st, db =>
    if mIdx < startI then
      completeMigsLoop migs startI startJ rest (mIdx + 1) st db
    else
      match completeActionsLoop migs startI startJ mIdx m.actions 0 st db with
      | (.ok _, st2, db2) => completeMigsLoop migs startI startJ rest (mIdx + 1) st2 db2
      | r => r

/-- Next IDENTITY value of `reshape.migrations`. -/
def nextLogBase (db : DB) : Int := (db.log.map Prod.fst).foldl max 0

/-- `save_migrations` (src/state.rs lines 262-272): insert one row per
migration; the IDENTITY column assigns ascending indices in insertion
order. -/
def appendLogRows (base : Int) : List Migration → List (Int × String)
  | [] => []
  | m :: rest => (base + 1, m.name) :: appendLogRows (base + 1) rest

/-- `State::complete` (src/state.rs lines 70-92): only legal from
`Completing`; in one transaction append the migrations to
`reshape.migrations` and persist `Idle`.  The in-memory current migration
becomes the last appended name. -/
def stateComplete (st : State) (db : DB) : Except String Unit × State × DB :=
  match st.status with
  | .completing migs _ _ =>
    let db2 := { db with log := db.log ++ appendLogRows (nextLogBase db) migs }
    let st2 : State :=
      { status := .idle,
        currentMigration := (migs.map Migration.name).getLast?.orElse
          (fun _ => st.currentMigration) }
    (.ok (), st2, saveState st2 db2)
  | _ =>
    (.error "could not update state to be completed, not in Completing state",
      st, db)

/-- The tail of `complete_migration` after the starting point is known
(src/lib.rs lines 227-331): drop the previous schema (no modelled
effect), run the completion loops, tear down the helpers, and finish via
`State::complete`. -/
def completeFrom (migs : List Migration) (startI startJ : Nat)
    (st : State) (db : DB) : Except String Unit × State × DB :=
  match completeMigsLoop migs startI startJ migs 0 st db with
  | (.ok _, st2, db2) => stateComplete st2 (tearDownHelpers db2)
  | r => r

/-- `Reshape::complete_migration` (src/lib.rs lines 199-332). -/
def completeMigration (st : State) (db : DB) :
    Except String Unit × State × DB :=
  match st.status with
  | .inProgress migs =>
    let st2 : State := { st with status := .completing migs 0 0 }
    completeFrom migs 0 0 st2 (saveState st2 db)
  | .completing migs i j => completeFrom migs i j st db
  | .aborting _ _ _ =>
    (.error "migration been aborted and can not be completed", st, db)
  | .applying _ =>
    (.error "a previous migration unexpectedly failed", st, db)
  | .idle => (.ok (), st, db)

/-! ### Coordinator: abort (src/lib.rs lines 429-527) -/

/-- One action abort inside `abort_migrations` (src/lib.rs lines
508-520): run `action.abort`; on success persist
`Aborting { migrations, migration_index, action_index }`. -/
def abortAction (migs : List Migration) (mIdx aIdx : Nat)
    (a : ActionOutcome) (st : State) (db : DB) :
    Except String Unit × State × DB :=
  if a.abortOk then
    let db2 := { db with abortedActions := db.abortedActions ++ [(mIdx, aIdx)] }
    let st2 : State := { st with status := .aborting migs mIdx aIdx }
    (.ok (), st2, saveState st2 db2)
  else (.error "failed to abort action", st, db)

/-- The reversed action loop of `abort_migrations` (src/lib.rs lines
498-521), skipping actions with
`migration_index == upper_migration_index - 1 AND
action_index >= upper_action_index`. -/
def abortActionsLoop (migs : List Migration) (upperM upperA mIdx : Nat) :
    List (Nat × ActionOutcome) → State → DB → Except String Unit × State × DB
  | [], st, db => (.ok (), st, db)
  | (aIdx, a) :: rest, st, db =>
    if mIdx = upperM - 1 ∧ aIdx ≥ upperA then
      abortActionsLoop migs upperM upperA mIdx rest st db
    else
      match abortAction migs mIdx aIdx a st db with
      | (.ok _, st2, db2) => abortActionsLoop migs upperM upperA mIdx rest st2 db2
      | r => r

/-- The reversed migration loop of `abort_migrations` (src/lib.rs lines
488-524), skipping migrations with
`migration_index >= upper_migration_index`. -/
def abortMigsLoop (migs : List Migration) (upperM upperA : Nat) :
    List (Nat × Migration) → State → DB → Except String Unit × State × DB
  | [], st, db => (.ok (), st, db)
  | (mIdx, m) :: rest, st, db =>
    if mIdx ≥ upperM then abortMigsLoop migs upperM upperA rest st db
    else
      match abortActionsLoop migs upperM upperA mIdx m.actions.enum.reverse st db with
      | (.ok _, st2, db2) => abortMigsLoop migs upperM upperA rest st2 db2
      | r => r

/-- The tail of `abort` after the bounds are known (src/lib.rs lines
457-478): `remaining_migrations.last().unwrap()` panics on an empty
list (modelled as a panic error); then drop the target schema (no
modelled effect), run `abort_migrations`, tear down the helpers, set
`Idle` and save. -/
def abortFrom (migs : List Migration) (upperM upperA : Nat)
    (st : State) (db : DB) : Except String Unit × State × DB :=
  match migs.getLast? with
  | none => (.error "panic: called Option unwrap on a None value", st, db)
  | some _ =>
    match abortMigsLoop migs upperM upperA migs.enum.reverse st db with
    | (.ok _, st2, db2) =>
      let st3 : State := { st2 with status := .idle }
      (.ok (), st3, saveState st3 (tearDownHelpers db2))
    | r => r

/-- `Reshape::abort` (src/lib.rs lines 429-479).  From `InProgress` or
`Applying` the code persists `Aborting { migrations, 0, 0 }` (src/lib.rs
line 438) and then proceeds locally with the bounds
`(usize::MAX, usize::MAX)` (line 441). -/
def abort (st : State) (db : DB) : Except String Unit × State × DB :=
  match st.status with
  | .inProgress migs =>
    let st2 : State := { st with status := .aborting migs 0 0 }
    abortFrom migs USIZE_MAX USIZE_MAX st2 (saveState st2 db)
  | .applying migs =>
    let st2 : State := { st with status := .aborting migs 0 0 }
    abortFrom migs USIZE_MAX USIZE_MAX st2 (saveState st2 db)
  | .aborting migs l a => abortFrom migs l a st db
  | .completing _ _ _ =>
    (.error "Migration completion has already been started", st, db)
  | .idle => (.ok (), st, db)

/-! ### Coordinator: migrate (src/lib.rs lines 54-197) -/

/-- One `action.run` call (src/lib.rs lines 124-135): record it on
success; `update_schema` has no modelled effect. -/
def runAction (mIdx aIdx : Nat) (a : ActionOutcome) (db : DB) : Bool × DB :=
  if a.runOk then (true, { db with ranActions := db.ranActions ++ [(mIdx, aIdx)] })
  else (false, db)

/-- The inner action loop of `migrate` (src/lib.rs lines 118-136): the
accumulator is `(result, last_action_index, db)`; the loop overwrites
`result` and `last_action_index` per action and breaks (only the inner
loop) on failure. -/
def runActionsLoop (mIdx : Nat) :
    List ActionOutcome → Nat → Bool × Nat × DB → Bool × Nat × DB
  | [], _, acc => acc
  | a :: rest, aIdx, (_, _, db) =>
    let r := runAction mIdx aIdx a db
    if r.1 then runActionsLoop mIdx rest (aIdx + 1) (true, aIdx, r.2)
    else (false, aIdx, r.2)

/-- The outer migration loop of `migrate` (src/lib.rs lines 114-139): the
accumulator is `(result, last_migration_index, last_action_index, db)`;
`last_migration_index` is set at every iteration and the outer loop
always visits every migration (only the inner loop breaks). -/
def runMigsLoop : List Migration → Nat → Bool × Nat × Nat × DB → Bool × Nat × Nat × DB
  | [], _, acc => acc
  | m :: rest, mIdx, (res, _, lastA, db) =>
    let inner := runActionsLoop mIdx m.actions 0 (res, lastA, db)
    runMigsLoop rest (mIdx + 1) (inner.1, mIdx, inner.2.1, inner.2.2)

/-- `Reshape::migrate` (src/lib.rs lines 54-197).  Reloads state, returns
`Ok` early on `InProgress`/`Completing`, computes the remaining
migrations, errors on an `Applying` mismatch, then persists `Applying`,
installs the helpers with the CURRENT migration, runs all actions, and on
overall success persists `InProgress` and, when no migration was
completed before, immediately invokes `complete_migration`; on failure it
moves in memory to `Aborting` at the one-past-last indices and invokes
`abort`, propagating the original error (or the abort error when abort
itself fails). -/
def migrate (desired : List Migration) (db0 : DB) :
    Except String Unit × State × DB :=
  let st := loadState db0
  match st.status with
  | .inProgress _ => (.ok (), st, db0)
  | .completing _ _ _ => (.ok (), st, db0)
  | _ =>
    let currentMigration := st.currentMigration
    match remainingMigrations db0 desired with
    | .error e => (.error e, st, db0)
    | .ok remaining =>
      if remaining.isEmpty then (.ok (), st, db0)
      else
        let mismatch : Bool :=
          match st.status with
          | .applying existing => ! migrationListEq existing remaining
          | _ => false
        if mismatch then
          (.error "a previous migration seems to have failed without cleaning up",
            st, db0)
        else
          let st2 : State := { st with status := .applying remaining }
          let db2 := setUpHelpers currentMigration (saveState st2 db0)
          match runMigsLoop remaining 0 (true, USIZE_MAX, USIZE_MAX, db2) with
          | (res, lastM, lastA, db3) =>
            if res then
              let st3 : State := { st2 with status := .inProgress remaining }
              let db4 := saveState st3 db3
              if currentMigration.isNone then completeMigration st3 db4
              else (.ok (), st3, db4)
            else
              let st3 : State :=
                { st2 with status := .aborting remaining (lastM + 1) (lastA + 1) }
              match abort st3 db3 with
              | (.ok _, st4, db4) => (.error "failed to apply migration", st4, db4)
              | r => r

/-! ### Backfill engine (src/migrations/common.rs lines 72-182) -/

/-- `BATCH_SIZE` (src/migrations/common.rs line 77). -/
def BATCH_SIZE : Nat := 1000

/-- Double-quote an identifier, as the Rust format strings do. -/
def quoteIdent (s : String) : String := "\"" ++ s ++ "\""

/-- The `primary_key_where` fragment (src/migrations/common.rs lines
94-106). -/
def primaryKeyWhereClause (table : String) (primaryKey : List String) : String :=
  String.intercalate " AND "
    (primaryKey.map (fun c =>
      quoteIdent table ++ "." ++ quoteIdent c ++ " = rows." ++ quoteIdent c))

/-- The `returning_columns` fragment (src/migrations/common.rs lines
108-112). -/
def returningColumnsClause (primaryKey : List String) : String :=
  String.intercalate ", " (primaryKey.map (fun c => "rows." ++ quoteIdent c))

/-- The `cursor_where` fragment (src/migrations/common.rs lines 114-123):
empty on the first iteration, a keyset predicate on the primary-key tuple
afterwards. -/
def cursorWhereClause (hasCursor : Bool) (primaryKeyColumns : String) : String :=
  if hasCursor then "WHERE (" ++ primaryKeyColumns ++ ") > $1" else ""

/-- The statement issued by each iteration of `batch_touch_rows`
(src/migrations/common.rs lines 125-145), with the whitespace of the Rust
format string normalised to single spaces. -/
def batchTouchQuery (table : String) (primaryKey : List String)
    (touchedColumn : String) (hasCursor : Bool) : String :=
  let pkCols := String.intercalate ", " primaryKey
  "WITH rows AS ( SELECT " ++ pkCols ++ " FROM public." ++ quoteIdent table ++
    " " ++ cursorWhereClause hasCursor pkCols ++ " ORDER BY " ++ pkCols ++
    " LIMIT " ++ toString BATCH_SIZE ++ " ), update AS ( UPDATE public." ++
    quoteIdent table ++ " " ++ quoteIdent table ++ " SET " ++
    quoteIdent touchedColumn ++ " = " ++ quoteIdent table ++ "." ++
    quoteIdent touchedColumn ++ " FROM rows WHERE " ++
    primaryKeyWhereClause table primaryKey ++ " RETURNING " ++
    returningColumnsClause primaryKey ++
    " ) SELECT LAST_VALUE((" ++ pkCols ++ ")) OVER () AS last_value" ++
    " FROM update LIMIT 1"

/-- The touched column (src/migrations/common.rs lines 86-90): the
supplied column, or `primary_key.first().unwrap()` — the unwrap panic on
a table without primary-key columns is modelled by `none`. -/
def touchedColumnFor (column : Option String) (primaryKey : List String) :
    Option String :=
  match column with
  | some c => some c
  | none => primaryKey.head?

/-- The row set the statement of one iteration touches and its
`last_value`: the table rows (represented by their primary-key tuples,
linearly ordered; the list is the table in primary-key order), filtered
by the keyset cursor, limited to `BATCH_SIZE`.  `getLast?` is the
`LAST_VALUE((pk)) OVER ()` of the touched rows. -/
def pageOf (rows : List Nat) (cursor : Option Nat) : List Nat :=
  match cursor with
  | none => rows.take BATCH_SIZE
  | some c => (rows.filter (fun r => decide (c < r))).take BATCH_SIZE

/-- The loop of `batch_touch_rows` (src/migrations/common.rs lines
81-156): issue the statement, exit when it returns no `last_value`, else
continue with it as the next cursor.  Returns the touched pages; `none`
would mean the fuel ran out before the loop exited by its own break. -/
def touchLoop (rows : List Nat) : Nat → Option Nat → Option (List (List Nat))
  | 0, _ => none
  | fuel + 1, cursor =>
    let page := pageOf rows cursor
    match page.getLast? with
    | none => some []
    | some v => (touchLoop rows fuel (some v)).map (fun rest => page :: rest)

/-- `batch_touch_rows` (src/migrations/common.rs lines 72-159), starting
with no cursor. -/
def batchTouchRows (rows : List Nat) : Option (List (List Nat)) :=
  touchLoop rows (rows.length + 1) none

/-! ### Identifier derivation (src/migrations/mod.rs lines 67-94,
src/migrations/alter_column.rs lines 431-445) -/

/-- Big-endian decimal digits, mirroring the Display rendering of a Rust
usize; the fuel makes the recursion structural and is always sufficient
at `fuel = n + 1`. -/
def decChars : Nat → Nat → List Char
  | 0, _ => []
  | fuel + 1, n =>
    if n < 10 then [Nat.digitChar n]
    else decChars fuel (n / 10) ++ [Nat.digitChar (n % 10)]

/-- The decimal rendering of a natural number as characters. -/
def natDecimal (n : Nat) : List Char := decChars (n + 1) n

/-- Rust formatting with `:0>4`: left-pad the decimal rendering with
zeros to a minimum width of 4. -/
def pad4 (n : Nat) : List Char :=
  List.replicate (4 - (natDecimal n).length) '0' ++ natDecimal n

/-- The characters of `MigrationContext::prefix` (src/migrations/mod.rs
lines 80-85). -/
def prefixChars (migrationIndex actionIndex : Nat) : List Char :=
  "__reshape_".data ++ pad4 migrationIndex ++ [ '_' ] ++ pad4 actionIndex

/-- `MigrationContext::prefix`. -/
def contextPrefix (migrationIndex actionIndex : Nat) : String :=
  String.mk (prefixChars migrationIndex actionIndex)

/-- `MigrationContext::prefix_inverse` (src/migrations/mod.rs lines
87-93): the same format applied to `1000 - migration_index` and
`1000 - action_index` (usize subtraction; indices beyond 1000 would
underflow, so statements about it are restricted to indices at most
1000). -/
def contextPrefixInverse (migrationIndex actionIndex : Nat) : String :=
  String.mk (prefixChars (1000 - migrationIndex) (1000 - actionIndex))

/-- `AlterColumn::up_trigger_name` (src/migrations/alter_column.rs lines
435-437). -/
def upTriggerName (migrationIndex actionIndex : Nat) : String :=
  contextPrefix migrationIndex actionIndex ++ "_alter_column_up_trigger"

/-- `AlterColumn::down_trigger_name` (src/migrations/alter_column.rs
lines 439-441), built from the inverse prefix. -/
def downTriggerName (migrationIndex actionIndex : Nat) : String :=
  contextPrefixInverse migrationIndex actionIndex ++ "_alter_column_down_trigger"

/-- Numeric value of a decimal digit character. -/
def digitVal (c : Char) : Nat := c.toNat - 48

/-- Evaluate a list of decimal digit characters (most significant
first). -/
def decValue (l : List Char) : Nat :=
  l.foldl (fun a c => a * 10 + digitVal c) 0

/-- Recover the migration index encoded in a prefix string: drop the
literal `__reshape_` head and read digits up to the separating
underscore. -/
def firstIndexOfChars (l : List Char) : Nat :=
  decValue ((l.drop 10).takeWhile (fun c => c != '_'))

/-- Recover the action index encoded in a prefix string: the digits after
the last underscore. -/
def secondIndexOfChars (l : List Char) : Nat :=
  decValue ((l.reverse.takeWhile (fun c => c != '_')).reverse)

/-! ### Concrete instances used by the claim evaluations -/

def migOkC1 : ActionOutcome := {}

def migFailC1 : ActionOutcome := { completeOk := false }

/-- One migration with two actions whose `complete` succeeds then
fails. -/
def migC1 : Migration := { name := "m", actions := [migOkC1, migFailC1] }

def dbC1 : DB :=
  { saved := { status := .inProgress [migC1], currentMigration := some "prev" } }

/-- The database after the first, failing `complete` invocation. -/
def dbC1after : DB := (completeMigration (loadState dbC1) dbC1).2.2

def mig1 : Migration := { name := "m1", actions := [{}] }

def dbC2 : DB :=
  { saved := { status := .inProgress [mig1], currentMigration := some "a" } }

def dbC2completing : DB :=
  { saved := { status := .completing [mig1] 0 0, currentMigration := some "a" } }

def dbC2idle : DB := { saved := { status := .idle, currentMigration := none } }

def migA : Migration := { name := "a", actions := [{}] }

def migB : Migration := { name := "b", actions := [{}] }

/-- A database where another Reshape instance holds the advisory lock. -/
def dbLocked : DB := { lockHeldByOther := true }

/-- A database with migration a completed, current migration a. -/
def dbLogA : DB :=
  { saved := { status := .idle, currentMigration := some "a" }, log := [(1, "a")] }

def dbHelperComplete : DB :=
  { saved := { status := .inProgress [migA], currentMigration := some "prev" },
    helperCurrentMigration := some (some "prev") }

def dbHelperAbort : DB :=
  { saved := { status := .inProgress [migA], currentMigration := some "prev" },
    helperCurrentMigration := some (some "prev") }

def desiredAB : List Migration := [migA, migB]

/-- The `reshape.migrations` rows (1, a), (2, b) in a storage order that
is not ascending by index. -/
def logUnsortedC6 : List (Int × String) := [(2, "b"), (1, "a")]

/-- The same rows stored in ascending index order. -/
def logSortedC6 : List (Int × String) := [(1, "a"), (2, "b")]

/-- A database left in `Applying` with a migration list that differs from
what a new `migrate` call would compute. -/
def dbApplyMismatch : DB :=
  { saved := { status := .applying [mig1], currentMigration := none } }

/-! ## Helper lemmas -/

theorem runActionsLoop_ok (mIdx : Nat) :
    ∀ (acts : List ActionOutcome), (∀ a ∈ acts, a.runOk = true) →
      ∀ (aIdx lastA : Nat) (db : DB),
        (runActionsLoop mIdx acts aIdx (true, lastA, db)).1 = true
        ∧ (runActionsLoop mIdx acts aIdx (true, lastA, db)).2.2.log = db.log := by
  intro acts
  induction acts with
  | nil => intro _ aIdx lastA db; exact ⟨rfl, rfl⟩
  | cons a rest ih =>
    intro h aIdx lastA db
    have ha : a.runOk = true := h a (List.mem_cons_self a rest)
    have hrest : ∀ x ∈ rest, x.runOk = true := fun x hx => h x (List.mem_cons_of_mem a hx)
    simp only [runActionsLoop, runAction, ha, if_true]
    exact ih hrest (aIdx + 1) aIdx _

theorem runMigsLoop_ok :
    ∀ (migs : List Migration), (∀ m ∈ migs, ∀ a ∈ m.actions, a.runOk = true) →
      ∀ (mIdx lastM lastA : Nat) (db : DB),
        (runMigsLoop migs mIdx (true, lastM, lastA, db)).1 = true
        ∧ (runMigsLoop migs mIdx (true, lastM, lastA, db)).2.2.2.log = db.log := by
  intro migs
  induction migs with
  | nil => intro _ mIdx lastM lastA db; exact ⟨rfl, rfl⟩
  | cons m rest ih =>
    intro h mIdx lastM lastA db
    have hm : ∀ a ∈ m.actions, a.runOk = true := h m (List.mem_cons_self m rest)
    have hrest : ∀ x ∈ rest, ∀ a ∈ x.actions, a.runOk = true :=
      fun x hx => h x (List.mem_cons_of_mem m hx)
    have hinner := runActionsLoop_ok mIdx m.actions hm 0 lastA db
    simp only [runMigsLoop]
    rcases hr : runActionsLoop mIdx m.actions 0 (true, lastA, db) with ⟨res, lastA2, db2⟩
    rw [hr] at hinner
    obtain ⟨hres, hlog⟩ := hinner
    simp only at hres hlog
    subst hres
    have := ih hrest (mIdx + 1) mIdx lastA2 db2
    simp only at this ⊢
    exact ⟨this.1, this.2.trans hlog⟩

theorem completeActionsLoop_all_ok (migs : List Migration) (mIdx : Nat) :
    ∀ (acts : List ActionOutcome), (∀ a ∈ acts, a.completeOk = true) →
      ∀ (aIdx : Nat) (st : State) (db : DB),
        ∃ st2 db2,
          completeActionsLoop migs 0 0 mIdx acts aIdx st db = (.ok (), st2, db2)
          ∧ db2.log = db.log
          ∧ st2.currentMigration = st.currentMigration
          ∧ (st2.status = st.status ∨ ∃ x y, st2.status = .completing migs x y) := by
  intro acts
  induction acts with
  | nil =>
    intro _ aIdx st db
    exact ⟨st, db, rfl, rfl, rfl, Or.inl rfl⟩
  | cons a rest ih =>
    intro h aIdx st db
    have ha : a.completeOk = true := h a (List.mem_cons_self a rest)
    have hrest : ∀ x ∈ rest, x.completeOk = true :=
      fun x hx => h x (List.mem_cons_of_mem a hx)
    have hskip : ¬ (mIdx = 0 ∧ aIdx < 0) := by omega
    simp only [completeActionsLoop, if_neg hskip, completeAction, ha, if_true]
    obtain ⟨st2, db2, heq, hlog, hcur, hst⟩ :=
      ih hrest (aIdx + 1)
        { st with status := .completing migs (mIdx + 1) (aIdx + 1) }
        (saveState { st with status := .completing migs (mIdx + 1) (aIdx + 1) }
          { db with completedActions := db.completedActions ++ [(mIdx, aIdx)] })
    refine ⟨st2, db2, heq, hlog, hcur, ?_⟩
    rcases hst with hst | ⟨x, y, hst⟩
    · exact Or.inr ⟨mIdx + 1, aIdx + 1, hst⟩
    · exact Or.inr ⟨x, y, hst⟩

theorem completeMigsLoop_all_ok (migs : List Migration) :
    ∀ (rest : List Migration), (∀ m ∈ rest, ∀ a ∈ m.actions, a.completeOk = true) →
      ∀ (mIdx : Nat) (st : State) (db : DB),
        ∃ st2 db2,
          completeMigsLoop migs 0 0 rest mIdx st db = (.ok (), st2, db2)
          ∧ db2.log = db.log
          ∧ st2.currentMigration = st.currentMigration
          ∧ (st2.status = st.status ∨ ∃ x y, st2.status = .completing migs x y) := by
  intro rest
  induction rest with
  | nil =>
    intro _ mIdx st db
    exact ⟨st, db, rfl, rfl, rfl, Or.inl rfl⟩
  | cons m rest2 ih =>
    intro h mIdx st db
    have hm : ∀ a ∈ m.actions, a.completeOk = true := h m (List.mem_cons_self m rest2)
    have hrest : ∀ x ∈ rest2, ∀ a ∈ x.actions, a.completeOk = true :=
      fun x hx => h x (List.mem_cons_of_mem m hx)
    have hskip : ¬ mIdx < 0 := by omega
    obtain ⟨st2, db2, heq, hlog, hcur, hst⟩ :=
      completeActionsLoop_all_ok migs mIdx m.actions hm 0 st db
    simp only [completeMigsLoop, if_neg hskip, heq]
    obtain ⟨st3, db3, heq3, hlog3, hcur3, hst3⟩ := ih hrest (mIdx + 1) st2 db2
    refine ⟨st3, db3, heq3, hlog3.trans hlog, hcur3.trans hcur, ?_⟩
    rcases hst3 with hst3 | ⟨x, y, hst3⟩
    · rw [hst3]; exact hst
    · exact Or.inr ⟨x, y, hst3⟩

theorem appendLogRows_names :
    ∀ (base : Int) (migs : List Migration),
      (appendLogRows base migs).map Prod.snd = migs.map Migration.name := by
  intro base migs
  induction migs generalizing base with
  | nil => rfl
  | cons m rest ih => simp [appendLogRows, ih]

theorem completeMigration_in_progress_ok (migs : List Migration)
    (h : ∀ m ∈ migs, ∀ a ∈ m.actions, a.completeOk = true) (st : State) (db : DB)
    (hst : st.status = .inProgress migs) :
    (completeMigration st db).1 = .ok ()
    ∧ (completeMigration st db).2.2.saved.status = .idle
    ∧ (completeMigration st db).2.2.log.map Prod.snd
        = db.log.map Prod.snd ++ migs.map Migration.name := by
  simp only [completeMigration, hst]
  obtain ⟨st2, db2, heq, hlog, hcur, hstat⟩ :=
    completeMigsLoop_all_ok migs migs h 0
      { st with status := .completing migs 0 0 }
      (saveState { st with status := .completing migs 0 0 } db)
  have hcompleting : ∃ x y, st2.status = .completing migs x y := by
    rcases hstat with hstat | hstat
    · exact ⟨0, 0, hstat⟩
    · exact hstat
  obtain ⟨x, y, hxy⟩ := hcompleting
  simp only [completeFrom, heq, stateComplete, tearDownHelpers, hxy]
  have hlog2 : db2.log = db.log := hlog
  refine ⟨?_, ?_, ?_⟩ <;> simp [saveState, hlog2, appendLogRows_names]

/-! ## Claim theorems -/

/-- C1: evaluation of the completion off-by-one.  With one migration of
two actions whose `complete` succeeds then fails, the first `complete`
invocation fails having persisted `Completing(1, 1)`; re-invoking
`complete` then skips migration 0 entirely, so the failing action (0, 1)
is never executed, yet the call reports success, marks the state `Idle`
and logs the migration as completed.  This contradicts the claim that the
next `complete` resumes exactly at the failing action. -/
theorem completing_resume_skips_failing_action :
    ((completeMigration (loadState dbC1) dbC1).1 =
        .error "failed to complete action")
    ∧ dbC1after.saved.status = .completing [migC1] 1 1
    ∧ (completeMigration (loadState dbC1after) dbC1after).1 = .ok ()
    ∧ (0, 1) ∉ (completeMigration (loadState dbC1after) dbC1after).2.2.completedActions
    ∧ (completeMigration (loadState dbC1after) dbC1after).2.2.saved.status = .idle
    ∧ (completeMigration (loadState dbC1after) dbC1after).2.2.log.map Prod.snd = ["m"] := by
  decide

/-- C2: evaluation of the abort bounds.  From `InProgress` the first
persisted state is `Aborting { migrations, 0, 0 }`, not the
`Aborting { migrations, MAX, MAX }` the claim states (so a crash-resumed
abort would skip every action).  The other two behaviours of the claim
hold: from `Completing`, abort errors; from `Idle` it is a no-op. -/
theorem abort_persists_zero_bounds :
    ((abort (loadState dbC2) dbC2).2.2.stateWrites.head? =
        some (.aborting [mig1] 0 0))
    ∧ Status.aborting [mig1] 0 0 ≠ .aborting [mig1] USIZE_MAX USIZE_MAX
    ∧ (abort (loadState dbC2completing) dbC2completing).1 =
        .error "Migration completion has already been started"
    ∧ abort (loadState dbC2idle) dbC2idle = (.ok (), loadState dbC2idle, dbC2idle) := by
  decide

/-- C3: the coordinator operations never go through `DbLocker::lock`.
`lockRun` itself would refuse to run any closure while another instance
holds the advisory lock, but `migrate` executed on such a database
performs its state writes and completes successfully, because
`Reshape` in src/lib.rs holds a bare `DbConn` and never calls
`DbLocker::lock`. -/
theorem coordinator_bypasses_advisory_lock :
    (∀ f : DB → Except String Unit × DB,
      lockRun f dbLocked = (.error lockErrorMessage, dbLocked))
    ∧ (migrate [migA] dbLocked).1 = .ok ()
    ∧ (migrate [migA] dbLocked).2.2.stateWrites ≠ []
    ∧ (migrate [migA] dbLocked).2.2.log = [(1, "a")] := by
  refine ⟨fun f => rfl, ?_, ?_, ?_⟩ <;> decide

/-- C4: the helper installed at `Applying` start is
`reshape.is_old_schema`, keyed on the GUC `reshape.is_old_schema` and on
the CURRENT (latest completed) migration passed by src/lib.rs line 106 —
not the `reshape.is_new_schema` function, keyed on the target migration,
that the claim states and that the generated triggers of AddColumn,
RemoveColumn and CreateTable actually invoke.  In a session whose
search_path is the target schema `migration_b` the installed predicate
returns false; it returns true for the old schema `migration_a`.
Teardown during complete and abort does hold. -/
theorem helpers_create_old_schema_function :
    setUpHelpersFunctionName ≠ actionTriggerGuardFunctionName
    ∧ setUpHelpersFunctionName = "reshape.is_old_schema"
    ∧ actionTriggerGuardFunctionName = "reshape.is_new_schema"
    ∧ isOldSchemaPredicate (some "a") "migration_b" none = false
    ∧ isOldSchemaPredicate (some "a") "migration_a" none = true
    ∧ isOldSchemaPredicate (some "a") "other" (some "YES") = true
    ∧ (migrate desiredAB dbLogA).2.2.helperCurrentMigration = some (some "a")
    ∧ (completeMigration (loadState dbHelperComplete)
        dbHelperComplete).2.2.helperCurrentMigration = none
    ∧ (abort (loadState dbHelperAbort) dbHelperAbort).2.2.helperCurrentMigration
        = none := by
  decide

/-- C5 counterexample: with the persisted state `InProgress`, `migrate`
returns success (after printing an advisory), not an error as the claim
states; the database is untouched. -/
theorem migrate_in_progress_reports_success :
    (migrate [mig1] dbC2).1 = .ok () ∧ (migrate [mig1] dbC2).2.2 = dbC2 := by
  decide

/-- C6: divergence of `remaining_migrations` on an unordered first page.
The first `get_migrations` query has no ORDER BY, so the rows arrive in
storage order; with rows (1, a), (2, b) stored as [(2, b), (1, a)] and
the matching desired list [a, b], the function errors even though the log
read in ascending index order is exactly the desired prefix (the claim
would require the result ok []); with the same rows stored ascending it
returns ok []. -/
theorem remaining_migrations_unordered_first_page :
    (remainingMigrations { log := logUnsortedC6 } desiredAB =
      .error "existing migration b does not match new migration a")
    ∧ (remainingMigrations { log := logSortedC6 } desiredAB = .ok []) := by
  decide

/-- C8 counterexample: at migration index 500 and action index 500 the
arithmetic-inverse prefix coincides with the forward prefix, refuting the
claim that they differ for every pair. -/
theorem prefix_inverse_collides_at_500 :
    contextPrefixInverse 500 500 = contextPrefix 500 500
    ∧ contextPrefix 500 500 = "__reshape_0500_0500" := by
  decide

/-- C10: `batch_touch_rows` with no supplied touched column takes the
first primary-key column with unwrap: on an empty primary-key column
list this is the panic branch (modelled by `none`), and whenever the
table has at least one primary-key column the selection succeeds, so the
panic branch is unreachable under that precondition. -/
theorem touched_column_requires_primary_key :
    touchedColumnFor none ([] : List String) = none
    ∧ (∀ primaryKey : List String, primaryKey ≠ [] →
        ∀ column, (touchedColumnFor column primaryKey).isSome = true) := by
  refine ⟨rfl, ?_⟩
  intro pk h col
  cases col with
  | some c => rfl
  | none =>
    cases pk with
    | nil => exact absurd rfl h
    | cons x xs => rfl

/-- C10 witness: concrete instantiation at a one-column primary key. -/
theorem touched_column_requires_primary_key_witness :
    (["id"] : List String) ≠ [] ∧ (touchedColumnFor none ["id"]).isSome = true :=
  ⟨by decide, touched_column_requires_primary_key.2 ["id"] (by decide) none⟩

/-- C5 amended: `migrate` refuses to proceed when the loaded state is
`InProgress` or `Completing`, but by returning success early without
touching the database (after printing an advisory); it returns an error
only in the `Applying` case when the computed remaining list differs (by
migration names, the `PartialEq` of `Migration`) from the stored list. -/
theorem migrate_wrong_state_checks :
    (∀ (db : DB) (desired migs : List Migration),
        db.saved.status = .inProgress migs →
        migrate desired db = (.ok (), db.saved, db))
    ∧ (∀ (db : DB) (desired migs : List Migration) (i j : Nat),
        db.saved.status = .completing migs i j →
        migrate desired db = (.ok (), db.saved, db))
    ∧ (∀ (db : DB) (desired migs r : List Migration),
        db.saved.status = .applying migs →
        remainingMigrations db desired = .ok r → r ≠ [] →
        migrationListEq migs r = false →
        (migrate desired db).1 =
          .error "a previous migration seems to have failed without cleaning up") := by
  refine ⟨?_, ?_, ?_⟩
  · intro db desired migs h
    simp [migrate, loadState, h]
  · intro db desired migs i j h
    simp [migrate, loadState, h]
  · intro db desired migs r h hrem hne hmm
    simp [migrate, loadState, h, hrem, hne, hmm]

/-- C5 witness: the three behaviours at concrete databases. -/
theorem migrate_wrong_state_checks_witness :
    (migrate [mig1] dbC2 = (.ok (), dbC2.saved, dbC2))
    ∧ (migrate [mig1] dbC2completing = (.ok (), dbC2completing.saved, dbC2completing))
    ∧ ((migrate [migB] dbApplyMismatch).1 =
        .error "a previous migration seems to have failed without cleaning up") :=
  ⟨migrate_wrong_state_checks.1 dbC2 [mig1] [mig1] rfl,
   migrate_wrong_state_checks.2.1 dbC2completing [mig1] [mig1] 0 0 rfl,
   migrate_wrong_state_checks.2.2 dbApplyMismatch [migB] [mig1] [migB] rfl
     (by decide) (by decide) (by decide)⟩

/-- C9: starting from a database with no completed migration
(`current_migration` is `None`) and all actions succeeding, `migrate`
does not stop in `InProgress`: it invokes completion itself, so the call
returns success with the persisted state `Idle` and the applied
migrations appended to `reshape.migrations` in order. -/
theorem migrate_fresh_database_autocompletes (desired : List Migration)
    (h : ∀ m ∈ desired, ∀ a ∈ m.actions, a.runOk = true ∧ a.completeOk = true) :
    (migrate desired ({} : DB)).1 = .ok ()
    ∧ (migrate desired ({} : DB)).2.2.saved.status = .idle
    ∧ (migrate desired ({} : DB)).2.2.log.map Prod.snd = desired.map Migration.name := by
  have hrem : remainingMigrations ({} : DB) desired = .ok desired := rfl
  cases desired with
  | nil => exact ⟨rfl, rfl, rfl⟩
  | cons d rest =>
    have hrun : ∀ m ∈ d :: rest, ∀ a ∈ m.actions, a.runOk = true :=
      fun m hm a ha => (h m hm a ha).1
    have hcomp : ∀ m ∈ d :: rest, ∀ a ∈ m.actions, a.completeOk = true :=
      fun m hm a ha => (h m hm a ha).2
    simp only [migrate, loadState, hrem]
    simp only [List.isEmpty_cons, Bool.false_eq_true, if_false]
    have hrml := runMigsLoop_ok (d :: rest) hrun 0 USIZE_MAX USIZE_MAX
      (setUpHelpers none
        (saveState { status := Status.applying (d :: rest), currentMigration := none }
          ({} : DB)))
    generalize hR : runMigsLoop (d :: rest) 0 (true, USIZE_MAX, USIZE_MAX,
      setUpHelpers none
        (saveState { status := Status.applying (d :: rest), currentMigration := none }
          ({} : DB))) = R at hrml ⊢
    obtain ⟨res, lastM, lastA, db3⟩ := R
    obtain ⟨hres, hlog⟩ := hrml
    simp only at hres hlog
    subst hres
    simp only [if_true, Option.isNone_none]
    have hlog3 : db3.log = [] := by
      simpa [setUpHelpers, saveState] using hlog
    have hmain := completeMigration_in_progress_ok (d :: rest) hcomp
      { status := Status.inProgress (d :: rest), currentMigration := none }
      (saveState { status := Status.inProgress (d :: rest), currentMigration := none } db3)
      rfl
    have hslog : (saveState
        { status := Status.inProgress (d :: rest), currentMigration := none } db3).log = [] := by
      simp [saveState, hlog3]
    rw [hslog] at hmain
    simpa using hmain

/-- C9 witness: one migration with one action applied to the empty
database. -/
theorem migrate_fresh_database_autocompletes_witness :
    (migrate [migA] ({} : DB)).1 = .ok ()
    ∧ (migrate [migA] ({} : DB)).2.2.saved.status = .idle
    ∧ (migrate [migA] ({} : DB)).2.2.log.map Prod.snd = [migA].map Migration.name :=
  migrate_fresh_database_autocompletes [migA] (by decide)

/-! ## Keyset pagination lemmas for the backfill engine -/

/-- On a strictly ascending list, the keyset predicate of the last
element of a batch selects exactly the rows after the batch. -/
theorem sorted_filter_gt_take (l : List Nat) (hs : l.Sorted (· < ·)) :
    ∀ (n v : Nat), (l.take n).getLast? = some v →
      l.filter (fun r => decide (v < r)) = l.drop n := by
  induction l with
  | nil => intro n v h; simp at h
  | cons x xs ih =>
    intro n v h
    match n with
    | 0 => simp at h
    | n + 1 =>
      rw [List.take_succ_cons] at h
      have hsx : ∀ b ∈ xs, x < b := (List.sorted_cons.mp hs).1
      have hsxs : xs.Sorted (· < ·) := (List.sorted_cons.mp hs).2
      rcases htn : xs.take n with _ | ⟨y, t⟩
      · rw [htn] at h
        have hv : x = v := by simpa using h
        subst hv
        rcases List.take_eq_nil_iff.mp htn with hn | hxs
        · subst hn
          simp only [List.drop_succ_cons, List.drop_zero]
          simp only [List.filter_cons]
          have hirr : ¬ x < x := Nat.lt_irrefl x
          simp only [decide_eq_true_eq]
          rw [if_neg hirr]
          exact List.filter_eq_self.mpr (fun a ha => by simpa using hsx a ha)
        · subst hxs
          simp
      · rw [htn] at h
        rw [List.getLast?_cons_cons] at h
        rw [← htn] at h
        have hstep := ih hsxs n v h
        have hvmem : v ∈ xs := by
          have hvtake : v ∈ xs.take n := List.mem_of_mem_getLast? h
          exact List.take_subset n xs hvtake
        have hxv : x < v := hsx v hvmem
        have hnot : ¬ v < x := by omega
        simp only [List.drop_succ_cons, List.filter_cons]
        simp only [decide_eq_true_eq]
        rw [if_neg hnot]
        exact hstep

/-- Running the touch loop with a cursor is running it from scratch on
the rows after the cursor. -/
theorem touchLoop_some_eq_filter :
    ∀ (fuel : Nat) (rows : List Nat), rows.Sorted (· < ·) → ∀ (c : Nat),
      touchLoop rows fuel (some c) =
        touchLoop (rows.filter (fun r => decide (c < r))) fuel none := by
  intro fuel
  induction fuel with
  | zero => intro rows _ c; rfl
  | succ fuel ih =>
    intro rows hs c
    have hpage : pageOf rows (some c) =
        pageOf (rows.filter (fun r => decide (c < r))) none := rfl
    simp only [touchLoop, hpage]
    rcases hlast : (pageOf (rows.filter (fun r => decide (c < r))) none).getLast? with _ | v
    · rfl
    · dsimp only
      have hvmem : v ∈ rows.filter (fun r => decide (c < r)) := by
        have h1 : v ∈ (rows.filter (fun r => decide (c < r))).take BATCH_SIZE :=
          List.mem_of_mem_getLast? hlast
        exact List.take_subset _ _ h1
      have hcv : c < v := by
        have := (List.mem_filter.mp hvmem).2
        simpa using this
      have hfs : (rows.filter (fun r => decide (c < r))).Sorted (· < ·) :=
        List.Pairwise.filter _ hs
      rw [ih rows hs v, ih _ hfs v, List.filter_filter]
      have hfeq : (rows.filter (fun a => decide (v < a) && decide (c < a))) =
          rows.filter (fun r => decide (v < r)) := by
        apply List.filter_congr
        intro r _
        rcases Nat.lt_or_ge v r with h | h
        · have hcr : c < r := Nat.lt_trans hcv h
          simp [h, hcr]
        · have hnot : ¬ v < r := Nat.not_lt.mpr h
          simp [hnot]
      rw [hfeq]

/-- The touch loop exits by its own break (never by fuel exhaustion at
fuel above the row count), touching all rows in non-empty batches of at
most `BATCH_SIZE`. -/
theorem touchLoop_complete :
    ∀ (fuel : Nat) (rows : List Nat), rows.Sorted (· < ·) → rows.length < fuel →
      ∃ pages, touchLoop rows fuel none = some pages
        ∧ pages.flatten = rows
        ∧ ∀ p ∈ pages, p.length ≤ BATCH_SIZE ∧ p ≠ [] := by
  intro fuel
  induction fuel with
  | zero => intro rows _ h; omega
  | succ fuel ih =>
    intro rows hs hlen
    rcases hrows : rows with _ | ⟨x, xs⟩
    · exact ⟨[], rfl, rfl, by simp⟩
    · subst hrows
      have hne : pageOf (x :: xs) none ≠ [] := by
        simp only [pageOf, BATCH_SIZE]
        simp [List.take_succ_cons]
      obtain ⟨v, hv⟩ : ∃ v, (pageOf (x :: xs) none).getLast? = some v := by
        rcases hq : (pageOf (x :: xs) none).getLast? with _ | v
        · exact absurd (List.getLast?_eq_none_iff.mp hq) hne
        · exact ⟨v, rfl⟩
      have hfilter : (x :: xs).filter (fun r => decide (v < r)) = (x :: xs).drop BATCH_SIZE :=
        sorted_filter_gt_take _ hs _ _ hv
      have hdropsorted : ((x :: xs).drop BATCH_SIZE).Sorted (· < ·) :=
        List.Pairwise.sublist (List.drop_sublist _ _) hs
      have hdroplen : ((x :: xs).drop BATCH_SIZE).length < fuel := by
        simp only [List.length_drop, List.length_cons, BATCH_SIZE]
        simp only [List.length_cons] at hlen
        omega
      obtain ⟨pages, hp, hjoin, hbound⟩ := ih _ hdropsorted hdroplen
      refine ⟨pageOf (x :: xs) none :: pages, ?_, ?_, ?_⟩
      · simp only [touchLoop, hv]
        rw [touchLoop_some_eq_filter fuel _ hs v, hfilter, hp]
        rfl
      · simp only [List.flatten_cons, hjoin, pageOf]
        exact List.take_append_drop BATCH_SIZE (x :: xs)
      · intro p hp2
        rcases List.mem_cons.mp hp2 with rfl | hp3
        · constructor
          · have h4 := List.length_take_le BATCH_SIZE (x :: xs)
            simp only [pageOf]
            exact h4
          · exact hne
        · exact hbound p hp3

/-- C7: each iteration of `batch_touch_rows` issues the keyset-paged
statement (cursor predicate absent exactly on the first iteration, limit
`BATCH_SIZE = 1000`, ordered by the full primary-key tuple, updating the
touched column to itself); the touched column is the supplied one, else
the first primary-key column; the loop exits exactly when a statement
returns no last_value, and on a table in primary-key order it touches
every row once in non-empty batches of at most 1000. -/
theorem batch_touch_rows_keyset_contract (rows : List Nat)
    (hs : rows.Sorted (· < ·)) :
    (∃ pages, batchTouchRows rows = some pages
      ∧ pages.flatten = rows
      ∧ ∀ p ∈ pages, p.length ≤ BATCH_SIZE ∧ p ≠ [])
    ∧ BATCH_SIZE = 1000
    ∧ (∀ (pk : List String) (c : String), touchedColumnFor (some c) pk = some c)
    ∧ (∀ pk : List String, touchedColumnFor none pk = pk.head?)
    ∧ (∀ pkCols : String, cursorWhereClause false pkCols = ""
        ∧ cursorWhereClause true pkCols = "WHERE (" ++ pkCols ++ ") > $1") :=
  ⟨touchLoop_complete (rows.length + 1) rows hs (by omega), rfl,
   fun _ _ => rfl, fun _ => rfl, fun _ => ⟨rfl, rfl⟩⟩

/-- C7 witness: a three-row table in primary-key order. -/
theorem batch_touch_rows_keyset_contract_witness :
    ([5, 7, 9] : List Nat).Sorted (· < ·)
    ∧ ((∃ pages, batchTouchRows [5, 7, 9] = some pages
        ∧ pages.flatten = [5, 7, 9]
        ∧ ∀ p ∈ pages, p.length ≤ BATCH_SIZE ∧ p ≠ [])
      ∧ BATCH_SIZE = 1000
      ∧ (∀ (pk : List String) (c : String), touchedColumnFor (some c) pk = some c)
      ∧ (∀ pk : List String, touchedColumnFor none pk = pk.head?)
      ∧ (∀ pkCols : String, cursorWhereClause false pkCols = ""
          ∧ cursorWhereClause true pkCols = "WHERE (" ++ pkCols ++ ") > $1")) :=
  ⟨by decide, batch_touch_rows_keyset_contract [5, 7, 9] (by decide)⟩

/-! ## Decimal-rendering lemmas for the context prefixes -/

theorem digitVal_digitChar : ∀ n : Nat, n < 10 → digitVal (Nat.digitChar n) = n := by
  decide

theorem digitChar_ne_underscore : ∀ n : Nat, n < 10 → Nat.digitChar n ≠ '_' := by
  decide

/-- Evaluating the rendered digits recovers the number. -/
theorem decChars_foldl :
    ∀ (fuel n : Nat), n < fuel → ∀ acc : Nat,
      (decChars fuel n).foldl (fun a c => a * 10 + digitVal c) acc
        = acc * 10 ^ (decChars fuel n).length + n := by
  intro fuel
  induction fuel with
  | zero => intro n h; omega
  | succ fuel ih =>
    intro n h acc
    by_cases h10 : n < 10
    · simp only [decChars, if_pos h10, List.foldl_cons, List.foldl_nil,
        List.length_cons, List.length_nil]
      rw [digitVal_digitChar n h10]
      ring
    · have hge : 10 ≤ n := Nat.not_lt.mp h10
      have hdiv : n / 10 < fuel := by
        have h1 : n / 10 < n := Nat.div_lt_self (by omega) (by omega)
        omega
      simp only [decChars, if_neg h10, List.foldl_append, List.length_append,
        List.foldl_cons, List.foldl_nil, List.length_cons, List.length_nil]
      rw [ih (n / 10) hdiv acc]
      rw [digitVal_digitChar (n % 10) (Nat.mod_lt n (by omega))]
      have hmod := Nat.div_add_mod n 10
      have hpow : 10 ^ ((decChars fuel (n / 10)).length + (0 + 1))
          = 10 ^ (decChars fuel (n / 10)).length * 10 := by
        rw [Nat.add_comm 0 1]
        rw [pow_succ]
      rw [hpow]
      ring_nf
      omega

theorem foldl_replicate_zeros :
    ∀ k : Nat, (List.replicate k '0').foldl (fun a c => a * 10 + digitVal c) 0 = 0 := by
  intro k
  induction k with
  | zero => rfl
  | succ k ih =>
    rw [List.replicate_succ, List.foldl_cons]
    have h0 : (0 : Nat) * 10 + digitVal '0' = 0 := by decide
    rw [h0, ih]

/-- `decValue` is a left inverse of the zero-padded rendering, hence
`pad4` is injective. -/
theorem decValue_pad4 : ∀ n : Nat, decValue (pad4 n) = n := by
  intro n
  unfold decValue pad4
  rw [List.foldl_append, foldl_replicate_zeros]
  unfold natDecimal
  rw [decChars_foldl (n + 1) n (by omega) 0]
  simp

theorem decChars_ne_underscore :
    ∀ (fuel n : Nat), ∀ c ∈ decChars fuel n, c ≠ '_' := by
  intro fuel
  induction fuel with
  | zero => intro n c hc; simp [decChars] at hc
  | succ fuel ih =>
    intro n c hc
    by_cases h10 : n < 10
    · simp only [decChars, if_pos h10] at hc
      simp only [List.mem_singleton] at hc
      subst hc
      exact digitChar_ne_underscore n h10
    · simp only [decChars, if_neg h10, List.mem_append, List.mem_singleton] at hc
      rcases hc with hc | hc
      · exact ih (n / 10) c hc
      · subst hc
        exact digitChar_ne_underscore (n % 10) (Nat.mod_lt n (by omega))

theorem pad4_ne_underscore (n : Nat) : ∀ c ∈ pad4 n, c ≠ '_' := by
  intro c hc
  unfold pad4 at hc
  rcases List.mem_append.mp hc with hc | hc
  · have := List.eq_of_mem_replicate hc
    subst this
    decide
  · exact decChars_ne_underscore (n + 1) n c hc

theorem takeWhile_append_underscore (l r : List Char) (hl : ∀ c ∈ l, c ≠ '_') :
    (l ++ '_' :: r).takeWhile (fun c => c != '_') = l := by
  induction l with
  | nil => simp [List.takeWhile_cons]
  | cons c cs ih =>
    have hc : c ≠ '_' := hl c (List.mem_cons_self c cs)
    have hcs : ∀ x ∈ cs, x ≠ '_' := fun x hx => hl x (List.mem_cons_of_mem c hx)
    simp only [List.cons_append, List.takeWhile_cons]
    have hb : (c != '_') = true := by simpa using hc
    rw [hb]
    simp only [if_true]
    rw [ih hcs]

theorem firstIdx_prefixChars (i j : Nat) :
    firstIndexOfChars (prefixChars i j) = i := by
  unfold firstIndexOfChars prefixChars
  rw [List.append_assoc, List.append_assoc]
  have h10 : ("__reshape_".data).length = 10 := by decide
  rw [show (10 : Nat) = ("__reshape_".data).length from h10.symm, List.drop_left]
  rw [List.singleton_append]
  rw [takeWhile_append_underscore _ _ (pad4_ne_underscore i)]
  exact decValue_pad4 i

theorem secondIdx_prefixChars (i j : Nat) :
    secondIndexOfChars (prefixChars i j) = j := by
  unfold secondIndexOfChars prefixChars
  rw [List.reverse_append, List.reverse_append, List.reverse_append]
  simp only [List.reverse_cons, List.reverse_nil, List.nil_append, List.append_assoc]
  rw [List.singleton_append]
  have hrev : ∀ c ∈ (pad4 j).reverse, c ≠ '_' := by
    intro c hc
    exact pad4_ne_underscore j c (List.mem_reverse.mp hc)
  rw [takeWhile_append_underscore _ _ hrev]
  rw [List.reverse_reverse]
  exact decValue_pad4 j

/-- The prefix encodes both indices faithfully. -/
theorem prefixChars_inj (i j i2 j2 : Nat)
    (h : prefixChars i j = prefixChars i2 j2) : i = i2 ∧ j = j2 := by
  constructor
  · have h1 := congrArg firstIndexOfChars h
    rwa [firstIdx_prefixChars, firstIdx_prefixChars] at h1
  · have h2 := congrArg secondIndexOfChars h
    rwa [secondIdx_prefixChars, secondIdx_prefixChars] at h2

/-- The up and down trigger names of an alter-column action can never
coincide: their suffixes differ. -/
theorem down_up_trigger_names_differ (i j : Nat) :
    downTriggerName i j ≠ upTriggerName i j := by
  intro h
  have hdata : (contextPrefixInverse i j).data ++ "_alter_column_down_trigger".data
      = (contextPrefix i j).data ++ "_alter_column_up_trigger".data :=
    congrArg String.data h
  have h13 := congrArg (fun l : List Char => l.reverse.take 13) hdata
  simp only [List.reverse_append] at h13
  rw [List.take_append_of_le_length (by decide),
    List.take_append_of_le_length (by decide)] at h13
  exact absurd h13 (by decide)

/-- For indices within the usable range, the inverse prefix collides with
the forward prefix exactly at (500, 500). -/
theorem prefix_inverse_eq_iff (i j : Nat) (hi : i ≤ 1000) (hj : j ≤ 1000) :
    contextPrefixInverse i j = contextPrefix i j ↔ (i = 500 ∧ j = 500) := by
  constructor
  · intro h
    have hdata : prefixChars (1000 - i) (1000 - j) = prefixChars i j :=
      congrArg String.data h
    obtain ⟨h1, h2⟩ := prefixChars_inj _ _ _ _ hdata
    omega
  · rintro ⟨rfl, rfl⟩
    rfl

/-- C8 amended: `prefix()` is `__reshape_` plus both indices zero-padded
to 4 digits (concrete instances shown); the arithmetic-inverse prefix
(built from `1000 - index`) differs from the forward prefix for every
index pair up to 1000 EXCEPT (500, 500), where the two coincide; an
action's down-trigger identifier still never equals its forward
up-trigger identifier because the name suffixes differ. -/
theorem prefix_inverse_collision_only_at_500 :
    (∀ i j : Nat, i ≤ 1000 → j ≤ 1000 →
      (contextPrefixInverse i j = contextPrefix i j ↔ (i = 500 ∧ j = 500)))
    ∧ (∀ i j : Nat, downTriggerName i j ≠ upTriggerName i j)
    ∧ contextPrefix 12 3 = "__reshape_0012_0003"
    ∧ contextPrefixInverse 12 3 = "__reshape_0988_0997" := by
  refine ⟨prefix_inverse_eq_iff, down_up_trigger_names_differ, ?_, ?_⟩ <;> decide

/-- C8 witness: the characterization applied at indices (1, 2). -/
theorem prefix_inverse_collision_only_at_500_witness :
    ((1 : Nat) ≤ 1000) ∧ ((2 : Nat) ≤ 1000)
    ∧ (contextPrefixInverse 1 2 = contextPrefix 1 2 ↔ ((1 : Nat) = 500 ∧ (2 : Nat) = 500)) :=
  ⟨by decide, by decide,
    prefix_inverse_collision_only_at_500.1 1 2 (by decide) (by decide)⟩

end Reshape
